import Mathlib

/-!
Verification of the access-control resolution engine and document CRUD
pipeline of tosijs-platform (Firebase functions source).

The embedding models JavaScript runtime values shallowly:

* a JS object is an insertion-ordered association list of string keys to
  values (JS objects never hold a duplicate key, so the lists built here
  are duplicate-free by construction, and theorems that range over
  arbitrary lists carry the corresponding Nodup side conditions);
* property assignment updates an existing key in place (keeping its
  position) or appends a fresh key, as JS does;
* `undefined` is an explicit value; truthiness checks are translated at
  each site (in particular an empty array is truthy, `0`, an empty string
  and `undefined` are falsy);
* the Firestore store is an external collaborator, modelled as a list of
  (document path, document) pairs whose list order is the canonical
  query-result order of the store;
* async functions have no concurrency here: awaits are sequential, so
  they are modelled as plain functions.

Sources embedded: collections/access.ts (ALL, accessMap, collectionPath,
getMethodAccess), collections/roles.ts (UserRoles), doc.ts (opaqueError,
getRef, isUnique, getDoc, the doc request handler), docs.ts (getRecords,
getDocs).
-/

namespace TosijsPlatform

/-- Character-level splitter used for the slash and equals separators of
logical paths (the JS `String.prototype.split` with a one-character
separator): `splitOnChar '/' ""` is `[""]`, and separators at the ends
produce empty segments, exactly as in JS. Defined structurally over the
character list so that concrete instances reduce inside the kernel. -/
def splitOnCharAux (c : Char) : List Char → List Char → List String
  | [], acc => [String.mk acc.reverse]
  | ch :: rest, acc =>
    if ch = c then String.mk acc.reverse :: splitOnCharAux c rest []
    else splitOnCharAux c rest (ch :: acc)

/-- Split a string at every occurrence of the character `c`. -/
def splitOnChar (c : Char) (s : String) : List String :=
  splitOnCharAux c s.data []

/-- Prefix test on strings (structural). -/
def strStartsWith (s p : String) : Bool :=
  p.data.isPrefixOf s.data

/-- Suffix test on strings (structural). -/
def strEndsWith (s p : String) : Bool :=
  p.data.reverse.isPrefixOf s.data.reverse

/-- Character membership test on strings (structural). -/
def strContainsChar (s : String) (c : Char) : Bool :=
  s.data.contains c

/-- JS runtime value: strings, numbers (the values relevant here are
integral), booleans, null, undefined, arrays, plain objects, and Error
objects (carrying their message). -/
inductive JValue where
  | str : String → JValue
  | num : Int → JValue
  | bool : Bool → JValue
  | null : JValue
  | undef : JValue
  | arr : List JValue → JValue
  | obj : List (String × JValue) → JValue
  | err : String → JValue

/-- Structural equality on JS values (used to model the Firestore query
operator for field equality). -/
def JValue.beq : JValue → JValue → Bool
  | .str a, .str b => a == b
  | .num a, .num b => a == b
  | .bool a, .bool b => a == b
  | .null, .null => true
  | .undef, .undef => true
  | .arr as, .arr bs => beqList as bs
  | .obj as, .obj bs => beqFields as bs
  | .err a, .err b => a == b
  | _, _ => false
where
  beqList : List JValue → List JValue → Bool
    | [], [] => true
    | a :: as, b :: bs => JValue.beq a b && beqList as bs
    | _, _ => false
  beqFields : List (String × JValue) → List (String × JValue) → Bool
    | [], [] => true
    | (k, a) :: as, (k', b) :: bs => k == k' && JValue.beq a b && beqFields as bs
    | _, _ => false

instance : BEq JValue := ⟨JValue.beq⟩

/-- Test for an `instanceof Error` value. -/
def JValue.isError : JValue → Bool
  | .err _ => true
  | _ => false

/-- Message of an Error value (the `.message` property). -/
def JValue.errMessage : JValue → String
  | .err m => m
  | _ => ""

/-- JS `typeof v` is one of the strings `string` or `number`. -/
def JValue.isStringOrNumber : JValue → Bool
  | .str _ => true
  | .num _ => true
  | _ => false

/-- A JS object: insertion-ordered association list with distinct keys. -/
abbrev Obj := List (String × JValue)

/-- Property read `o[k]`: the value at the first occurrence of `k`, or
`none` when the key is absent (JS yields `undefined`). -/
def objGet (o : Obj) (k : String) : Option JValue :=
  List.lookup k o

/-- Property assignment `o[k] = v` on association lists over any value
type: replaces the value at an existing key in place, else appends. -/
def alistSet {β : Type} : List (String × β) → String → β → List (String × β)
  | [], k, v => [(k, v)]
  | e :: rest, k, v => if e.1 = k then (e.1, v) :: rest else e :: alistSet rest k v

/-- Property deletion `delete o[k]` (the key is unique in a JS object, so
filtering every occurrence is the same operation). -/
def alistErase {β : Type} (l : List (String × β)) (k : String) : List (String × β) :=
  l.filter (fun e => e.1 != k)

/-- Property assignment on objects. -/
def objSet (o : Obj) (k : String) (v : JValue) : Obj :=
  alistSet o k v

/-- Spread `{ ...v }` of a value into an object literal: an object
contributes its own enumerable properties; null, undefined and Error
objects (whose properties are non-enumerable) contribute none. Strings
and arrays would contribute index properties, which no code path here
spreads, so they also map to the empty contribution. -/
def spreadFields : JValue → Obj
  | .obj o => o
  | _ => []

/-- Object spread merge `{ ...a, ...b }`: the keys of `a` in order, values
overridden by `b`, then the fresh keys of `b` appended in order. -/
def objMerge (a b : Obj) : Obj :=
  b.foldl (fun acc e => objSet acc e.1 e.2) a

/-- UserRoles record from collections/roles.ts: the resolved caller
identity for a request. -/
structure UserRoles where
  name : String
  contacts : List (String × String)
  roles : List String
  userIds : List String

/-- The frozen anonymousUser sentinel (roles: []). -/
def anonymousUser : UserRoles :=
  { name := "unknown", contacts := [], roles := [], userIds := [] }

/-- Value of a FieldAccessMap entry: the ALL sentinel or any other value. -/
inductive FieldGrant where
  | all : FieldGrant
  | other : JValue → FieldGrant

/-- FieldAccessMap from collections/access.ts: a JS object whose values
are compared against the ALL sentinel. -/
abbrev FieldAccessMap := List (String × FieldGrant)

/-- Grant declared in an AccessConfig entry: the ALL sentinel, a field
access map, or an access filter function (data, userRoles) returning any
value, an Error denying access. -/
inductive Grant where
  | all : Grant
  | fieldMap : FieldAccessMap → Grant
  | filterFn : (Obj → UserRoles → JValue) → Grant

/-- AccessConfig from collections/access.ts: the optional read, write and
list grants a role declares. -/
structure AccessConfig where
  read : Option Grant := none
  write : Option Grant := none
  list : Option Grant := none

/-- Access categories the REST methods map onto. -/
inductive AccessCategory where
  | read : AccessCategory
  | write : AccessCategory
  | list : AccessCategory

/-- Property read `roleAccess[accessType]`. -/
def catGrant (cat : AccessCategory) (cfg : AccessConfig) : Option Grant :=
  match cat with
  | .read => cfg.read
  | .write => cfg.write
  | .list => cfg.list

/-- CollectionConfig from collections/access.ts. The schema validator and
the validate hook are external collaborators carried as opaque functions:
schema validation yields (valid, errors), the validate hook returns the
(possibly rewritten) record or an Error. -/
structure CollectionConfig where
  schema : Option (Obj → Bool × List (String × String)) := none
  unique : Option (List String) := none
  tagFields : Option (List String) := none
  validate : Option (Obj → UserRoles → Obj → Except String Obj) := none
  access : Option (List (String × AccessConfig)) := none
  cacheLatencySeconds : Option Nat := none

/-- The COLLECTIONS registry: collection path to configuration. -/
abbrev CollectionMap := List (String × CollectionConfig)

/-- accessMap from collections/access.ts: REST method to access category;
an unmapped method yields `undefined`. -/
def accessMap : String → Option AccessCategory
  | "GET" => some .read
  | "POST" => some .write
  | "PUT" => some .write
  | "PATCH" => some .write
  | "DELETE" => some .write
  | "LIST" => some .list
  | _ => none

/-- collectionPath from collections/access.ts: keep the even-index parts
of the slash-separated path (the collection segments). -/
def collectionPath (path : String) : String :=
  let pathParts := splitOnChar '/' path
  String.intercalate "/" ((pathParts.enum.filter (fun e => e.1 % 2 == 0)).map Prod.snd)

/-- Result of getMethodAccess: the ALL sentinel, or a filter function
(either a declared AccessFilterFunc or the closure generated for a field
map); denial is `none`. -/
inductive MethodAccess where
  | all : MethodAccess
  | fn : (Obj → UserRoles → JValue) → MethodAccess

/-- Closure generated by getMethodAccess for a field map grant: copies
`_path` and every field whose map entry is the ALL sentinel from the
document into a fresh object. -/
def generatedFilter (m : FieldAccessMap) : Obj → UserRoles → JValue :=
  fun data _ =>
    let filtered : Obj := [("_path", (objGet data "_path").getD .undef)]
    .obj (m.foldl
      (fun acc e =>
        match e.2 with
        | .all => objSet acc e.1 ((objGet data e.1).getD .undef)
        | .other _ => acc)
      filtered)

/-- Field-map narrowing loop of getMethodAccess as written in the source:
`for (const key in Object.keys(access))` iterates the index strings
"0".."n-1" of the key array (not the keys), and `delete access.key`
removes the property literally named `key`; so for every index string not
in filterFields the property named "key" is deleted, and nothing else
changes. -/
def narrowFieldMap (m : FieldAccessMap) (filterFields : List String) : FieldAccessMap :=
  (List.range m.length).foldl
    (fun acc i => if filterFields.contains (toString i) then acc else alistErase acc "key")
    m

/-- getMethodAccess from collections/access.ts: resolve the effective
grant for (collection, method, caller role-set), starting from the public
role's entry, overriding with each declared role the caller holds, then
applying the optional filterFields narrowing, and wrapping a field map
grant into the generated filter closure. `filterFields = none` models the
default `false`; `some fields` models a supplied array (truthy even when
empty). -/
def getMethodAccess (collections : CollectionMap) (cPath : String)
    (method : String) (userRoles : UserRoles)
    (filterFields : Option (List String)) : Option MethodAccess :=
  match List.lookup cPath collections with
  | none => none
  | some config =>
    match config.access with
    | none => none
    | some accessEntries =>
      match accessMap method with
      | none => none
      | some accessType =>
        let access0 : Option Grant :=
          (List.lookup "public" accessEntries).bind (catGrant accessType)
        let access1 : Option Grant := accessEntries.foldl
          (fun acc e =>
            if userRoles.roles.contains e.1 then
              match catGrant accessType e.2 with
              | some g => some g
              | none => acc
            else acc)
          access0
        let access2 : Option Grant :=
          match filterFields with
          | none => access1
          | some ff =>
            match access1 with
            | some .all =>
              some (.fieldMap (ff.foldl (fun map key => alistSet map key .all) []))
            | some (.fieldMap m) => some (.fieldMap (narrowFieldMap m ff))
            | other => other
        match access2 with
        | some (.fieldMap m) => some (.fn (generatedFilter m))
        | some .all => some .all
        | some (.filterFn f) => some (.fn f)
        | none => none

/-- Wrapping of a resolved grant as getMethodAccess returns it: a field
map becomes its generated filter closure, the other grants pass through.
Stated separately so theorems can speak about which declared grant won. -/
def wrapGrant : Grant → MethodAccess
  | .all => .all
  | .fieldMap m => .fn (generatedFilter m)
  | .filterFn f => .fn f

/-- The external document store: (full document path, document) pairs.
List order is the canonical order in which the store returns query
results (Firestore orders by document id when no ordering is given). -/
abbrev Store := List (String × Obj)

/-- Documents of the collection at path `cp`: the store entries whose
path is `cp` followed by a single id segment, as (id, document) pairs. -/
def collDocs (store : Store) (cp : String) : List (String × Obj) :=
  store.filterMap (fun e =>
    if strStartsWith e.1 (cp ++ "/") then
      let id := e.1.drop (cp.length + 1)
      if id != "" && !(strContainsChar id '/') then some (id, e.2) else none
    else none)

/-- Firestore where-clause of a query reference: field equality or
array membership. -/
inductive QueryFilter where
  | eqF : String → JValue → QueryFilter
  | arrayContains : String → JValue → QueryFilter

/-- Whether a document satisfies a where-clause. -/
def queryMatch (f : QueryFilter) (d : Obj) : Bool :=
  match f with
  | .eqF field value => objGet d field == some value
  | .arrayContains field value =>
    match objGet d field with
    | some (.arr xs) => xs.contains value
    | _ => false

/-- Run a filtered collection query against the store (no limit applied
here; callers take as many results as their limit allows). -/
def runQuery (store : Store) (cp : String) (filters : List QueryFilter) :
    List (String × Obj) :=
  (collDocs store cp).filter (fun e => filters.all (fun f => queryMatch f e.2))

/-- Intermediate reference while getRef walks the path: the store root, a
document reference, or a collection/query reference. -/
inductive RefState where
  | root : RefState
  | doc : String → RefState
  | coll : String → List QueryFilter → RefState

/-- Outcome of getRef: a document reference, a collection/query
reference, a returned Error, or a thrown exception (the function throws
on malformed paths; `coll.where` exists only on collection references, so
continuing past a query/collection reference throws a TypeError). -/
inductive RefResult where
  | docRef : String → RefResult
  | collRef : String → List QueryFilter → RefResult
  | errRef : String → RefResult
  | thrownRef : String → RefResult

/-- One `ref.collection(c)` step; only the root and document references
have a `collection` method. -/
def refCollection (st : RefState) (c : String) : Except String String :=
  match st with
  | .root => .ok c
  | .doc p => .ok (p ++ "/" ++ c)
  | .coll _ _ => .error "ref.collection is not a function"

/-- Loop body of getRef from doc.ts, consuming two path segments per
iteration (collection, docSpecifier). `stack` is the collectionStack of
collection segments pushed so far. -/
def getRefGo (collections : CollectionMap) (store : Store) (isCollection : Bool)
    (fullPath : String) :
    List String → List String → RefState → RefResult
  | [], _, st =>
    match st with
    | .doc p => .docRef p
    | .coll cp fs => .collRef cp fs
    | .root => .thrownRef "unreachable: the loop ran at least once"
  | [c], stack, st =>
    -- docSpecifier is undefined: allowed only as the trailing collection
    -- segment of a collection lookup
    let _ := stack
    if c = "" then .thrownRef "expected collection"
    else if !isCollection then .thrownRef "expected docSpecifier"
    else
      match refCollection st c with
      | .ok cp => .collRef cp []
      | .error m => .thrownRef m
  | c :: d :: rest, stack, st =>
    if c = "" then .thrownRef "expected collection"
    else
      let stack' := stack ++ [c]
      if d = "" then
        -- an empty docSpecifier is falsy, same branch as undefined
        if !isCollection || rest != [] then .thrownRef "expected docSpecifier"
        else
          match refCollection st c with
          | .ok cp => .collRef cp []
          | .error m => .thrownRef m
      else if !(strContainsChar d '=') then
        match refCollection st c with
        | .ok cp => getRefGo collections store isCollection fullPath rest stack'
            (.doc (cp ++ "/" ++ d))
        | .error m => .thrownRef m
      else
        let segs := splitOnChar '=' d
        let field := segs.headD ""
        let value := (segs.drop 1).headD ""
        let config := List.lookup (String.intercalate "/" stack') collections
        let isUniqueField := match config with
          | some cfg => (cfg.unique.getD []).contains field
          | none => false
        let isTagField := match config with
          | some cfg => (cfg.tagFields.getD []).contains field
          | none => false
        if !isUniqueField && !isTagField then
          .errRef (fullPath ++ " is not allowed; " ++ field ++ " is not an allowed key")
        else
          let filter : QueryFilter :=
            if isTagField then .arrayContains field (.str value)
            else .eqF field (.str value)
          match refCollection st c with
          | .error m => .thrownRef m
          | .ok cp =>
            if isCollection then
              getRefGo collections store isCollection fullPath rest stack'
                (.coll cp [filter])
            else
              match ((runQuery store cp [filter]).take 1).head? with
              | none => .errRef ("record not found " ++ fullPath)
              | some e => getRefGo collections store isCollection fullPath rest stack'
                  (.doc (cp ++ "/" ++ e.1))

/-- getRef from doc.ts: translate a logical path into a store reference.
The single-document `field=value` lookup resolves eagerly through a
limit-1 query; the collection form keeps the filter on the reference. -/
def getRef (collections : CollectionMap) (store : Store)
    (path : String) (isCollection : Bool) : RefResult :=
  getRefGo collections store isCollection path (splitOnChar '/' path) [] .root

/-- isUnique from doc.ts: a bounded (limit 2) existence check that the
candidate value is held by no collection document other than the one
being written (identified by the resolved reference id). Thrown
exceptions propagate to the caller as `Except.error`. -/
def isUnique (collections : CollectionMap) (store : Store)
    (path : String) (field : String) (value : JValue) (existingId : String) :
    Except String Bool :=
  if !value.isStringOrNumber then .ok false
  else
    let parts := splitOnChar '/' path
    let collPath := String.intercalate "/" parts.dropLast
    match getRef collections store collPath true with
    | .errRef _ => .ok false
    | .thrownRef m => .error m
    | .docRef _ => .error "ref.where is not a function"
    | .collRef cp filters =>
      let snapshot := (runQuery store cp (filters ++ [.eqF field value])).take 2
      .ok (!(snapshot.any (fun e => e.1 != existingId)))

/-- DocResult from doc.ts. -/
inductive DocResult where
  | ok : JValue → DocResult
  | errRes : String → Nat → DocResult

/-- PRIVILEGED_ROLES from doc.ts: roles that see detailed errors. -/
def PRIVILEGED_ROLES : List String := ["admin", "developer", "owner"]

/-- hasPrivilegedRole from doc.ts. -/
def hasPrivilegedRole (userRoles : UserRoles) : Bool :=
  userRoles.roles.any (fun role => PRIVILEGED_ROLES.contains role)

/-- opaqueError from doc.ts: privileged callers see the detailed reason
and status, everyone else sees an opaque not-found outcome. -/
def opaqueError (userRoles : UserRoles) (reason : String) (status : Nat) : DocResult :=
  .errRes (if hasPrivilegedRole userRoles then reason else "not found")
    (if hasPrivilegedRole userRoles then status else 404)

/-- CacheEntry of the TTL document cache in doc.ts. -/
structure CacheEntry where
  data : JValue
  expiry : Nat
  lastAccess : Nat

/-- The document cache, keyed by logical path (a JS Map: insertion
ordered, set updates in place). -/
abbrev Cache := List (String × CacheEntry)

/-- MAX_CACHE_ENTRIES from doc.ts. -/
def MAX_CACHE_ENTRIES : Nat := 100

/-- Stable insertion by ascending lastAccess (a later entry with an equal
key goes after the earlier one, as the stable Array.sort does). -/
def insertByLastAccess (x : String × CacheEntry) : Cache → Cache
  | [] => [x]
  | y :: ys =>
    if x.2.lastAccess < y.2.lastAccess then x :: y :: ys
    else y :: insertByLastAccess x ys

/-- Stable sort of cache entries by ascending lastAccess. -/
def sortByLastAccess (c : Cache) : Cache :=
  c.foldl (fun acc x => insertByLastAccess x acc) []

/-- evictOldestCacheEntries from doc.ts: when the cache exceeds its
bound, drop the `Math.ceil(MAX_CACHE_ENTRIES * 0.2) = 20` least recently
accessed entries (deletion keeps the order of the remaining entries). -/
def evictOldestCacheEntries (c : Cache) : Cache :=
  if c.length ≤ MAX_CACHE_ENTRIES then c
  else
    let toRemove := ((sortByLastAccess c).take 20).map Prod.fst
    c.filter (fun e => !(toRemove.contains e.1))

/-- getDoc from doc.ts: the single-document read pipeline. Returns the
DocResult together with the cache state after the call (the cache is the
only mutable state getDoc touches). `now` is the current clock in
milliseconds; a cache hit refreshes the entry's lastAccess. -/
def getDoc (collections : CollectionMap) (store : Store) (cache : Cache)
    (now : Nat) (userRoles : UserRoles) (method : String) (path : String) :
    DocResult × Cache :=
  let cPath := collectionPath path
  let config := List.lookup cPath collections
  match getMethodAccess collections cPath method userRoles none with
  | none => (opaqueError userRoles "access denied" 403, cache)
  | some access =>
    let cacheSeconds : Nat := (config.bind (fun c => c.cacheLatencySeconds)).getD 0
    let hit : Option CacheEntry :=
      if cacheSeconds != 0 then
        match List.lookup path cache with
        | some entry => if entry.expiry > now then some entry else none
        | none => none
      else none
    match hit with
    | some entry =>
      (.ok entry.data, alistSet cache path { entry with lastAccess := now })
    | none =>
      match getRef collections store path false with
      | .errRef msg => (opaqueError userRoles msg 404, cache)
      | .thrownRef _ => (opaqueError userRoles "internal error" 500, cache)
      | .collRef _ _ => (opaqueError userRoles "invalid path for document" 400, cache)
      | .docRef dp =>
        match List.lookup dp store with
        | none => (.errRes "not found" 404, cache)
        | some docData =>
          let filteredData : Except DocResult Obj :=
            match access with
            | .all => .ok (objSet docData "_path" (.str path))
            | .fn f =>
              let filtered := f docData userRoles
              if filtered.isError then
                .error (opaqueError userRoles filtered.errMessage 403)
              else .ok (objSet (spreadFields filtered) "_path" (.str path))
          match filteredData with
          | .error res => (res, cache)
          | .ok data =>
            if cacheSeconds != 0 then
              let evicted := evictOldestCacheEntries cache
              (.ok (.obj data),
                alistSet evicted path
                  { data := .obj data
                    expiry := now + cacheSeconds * 1000
                    lastAccess := now })
            else (.ok (.obj data), cache)

/-- Truthiness of a JS value. -/
def JValue.truthy : JValue → Bool
  | .str s => s != ""
  | .num n => n != 0
  | .bool b => b
  | .null => false
  | .undef => false
  | .arr _ => true
  | .obj _ => true
  | .err _ => true

/-- Order parameter parse of getRecords, the regex
`(word)((asc)|(desc))?` anchored at both ends: the sort field and whether
the direction suffix is `(desc)`; no match means no ordering. -/
def parseOrder (order : String) : Option (String × Bool) :=
  let (base, desc) :=
    if strEndsWith order "(desc)" then (order.dropRight 6, true)
    else if strEndsWith order "(asc)" then (order.dropRight 5, false)
    else (order, false)
  if base.length > 0 && base.toList.all (fun ch => ch.isAlphanum || ch = '_') then
    some (base, desc)
  else none

/-- Rank used by the coarse model of the external store's value ordering
(the store is an external collaborator; no theorem rests on the relative
order it returns, only on membership and bounds). -/
def jvalRank : JValue → Nat
  | .undef => 0
  | .null => 1
  | .bool _ => 2
  | .num _ => 3
  | .str _ => 4
  | .arr _ => 5
  | .obj _ => 6
  | .err _ => 7

/-- Coarse total preorder on store values for orderBy. -/
def jvalLe (a b : JValue) : Bool :=
  if jvalRank a != jvalRank b then decide (jvalRank a < jvalRank b)
  else
    match a, b with
    | .num x, .num y => decide (x ≤ y)
    | .str x, .str y => decide (x ≤ y)
    | .bool x, .bool y => !x || y
    | _, _ => true

/-- Stable insertion with respect to a boolean total preorder: an element
is placed after every element less than or equal to it. -/
def insertLe {α : Type} (le : α → α → Bool) (x : α) : List α → List α
  | [] => [x]
  | y :: ys => if le y x then y :: insertLe le x ys else x :: y :: ys

/-- Stable sort by a boolean total preorder. -/
def sortLe {α : Type} (le : α → α → Bool) (l : List α) : List α :=
  l.foldl (fun acc x => insertLe le x acc) []

/-- Store ordering of query hits by a document field (ascending or
descending). -/
def sortByField (field : String) (desc : Bool) (docs : List (String × Obj)) :
    List (String × Obj) :=
  let key := fun (e : String × Obj) => (objGet e.2 field).getD .undef
  let le := fun a b => if desc then jvalLe (key b) (key a) else jvalLe (key a) (key b)
  sortLe le docs

/-- getRecords from docs.ts: resolve the collection reference, apply the
optional ordering and the limit, optionally project to the requested
fields, and attach `_path` (base collection path plus id) to every hit.
A getRef Error yields an empty list; a thrown exception propagates. -/
def getRecords (collections : CollectionMap) (store : Store) (path : String)
    (limit : Nat) (order : String) (fields : Option (List String)) :
    Except String (List Obj) :=
  match getRef collections store path true with
  | .errRef _ => .ok []
  | .thrownRef m => .error m
  | .docRef _ => .error "ref.limit is not a function"
  | .collRef cp filters =>
    let docs := runQuery store cp filters
    let docs := match parseOrder order with
      | some (field, desc) => sortByField field desc docs
      | none => docs
    let docs := docs.take limit
    let base := collectionPath path
    .ok (docs.map (fun e =>
      let data := match fields with
        | some fs => e.2.filter (fun kv => fs.contains kv.1)
        | none => e.2
      objSet data "_path" (.str (base ++ "/" ++ e.1))))

/-- getDocs from docs.ts: resolve LIST access with the requested field
subset; an `ALL` grant returns the raw records, a filter function is
applied to every record independently and records whose result is an
Error are dropped, and denial returns an empty list. -/
def getDocs (collections : CollectionMap) (store : Store)
    (userRoles : UserRoles) (path : String) (limit : Nat)
    (fields : Option (List String)) (order : String) :
    Except String (List JValue) :=
  match getMethodAccess collections (collectionPath path) "LIST" userRoles fields with
  | some .all =>
    (getRecords collections store path limit order fields).map
      (fun recs => recs.map .obj)
  | some (.fn f) =>
    (getRecords collections store path limit order fields).map
      (fun recs =>
        (recs.map (fun rec => f rec userRoles)).filter (fun r => !r.isError))
  | none => .ok []

/-- Outcome of an HTTP handler: a text response, a JSON response, or an
uncaught exception. -/
inductive HandlerOutcome where
  | resp : Nat → String → HandlerOutcome
  | jsonResp : Nat → JValue → HandlerOutcome
  | crash : String → HandlerOutcome

/-- Last path segment: `ref.id` of a resolved document reference. -/
def lastSegment (p : String) : String :=
  (splitOnChar '/' p).getLast?.getD ""

/-- Uniqueness loop of the write branch: the first declared unique field
whose isUnique check fails, if any; thrown exceptions propagate. -/
def checkUniques (collections : CollectionMap) (store : Store)
    (path : String) (existingId : String) (data : Obj) :
    List String → Except String (Option String)
  | [] => .ok none
  | f :: rest =>
    match isUnique collections store path f ((objGet data f).getD .undef) existingId with
    | .error m => .error m
    | .ok false => .ok (some f)
    | .ok true => checkUniques collections store path existingId data rest

/-- The doc request handler from doc.ts (the body of the onRequest
callback after the OPTIONS middleware): full CRUD switch. `pathOpt`
models the `p` parameter (absent or empty is falsy), `reqData` models
`req.body.data`, and `nowStr` the serialized current date. Returns the
response together with the store after the call. -/
def docHandler (collections : CollectionMap) (store : Store)
    (userRoles : UserRoles) (method : String) (pathOpt : Option String)
    (reqData : JValue) (nowStr : String) : HandlerOutcome × Store :=
  let path := (pathOpt.getD "")
  if path = "" then (.resp 400 "missing path", store)
  else
    let pathParts := splitOnChar '/' path
    if pathParts.length % 2 != 0 then (.resp 400 "bad path", store)
    else
      let cPath := collectionPath path
      match List.lookup cPath collections with
      | none => (.resp 404 "not found", store)
      | some config =>
        match getMethodAccess collections cPath method userRoles none with
        | none => (.resp 403 "forbidden", store)
        | some access =>
          match getRef collections store path false with
          | .errRef msg => (.resp 404 msg, store)
          | .thrownRef m => (.crash m, store)
          | .collRef _ _ => (.resp 400 "invalid path", store)
          | .docRef dp =>
            let docExisting := List.lookup dp store
            if method = "GET" then
              match docExisting with
              | some docData =>
                let data := match access with
                  | .all => objSet docData "_path" (.str path)
                  | .fn f =>
                    objSet (spreadFields (f docData userRoles)) "_path" (.str path)
                (.jsonResp 200 (.obj data), store)
              | none => (.resp 404 "", store)
            else if method = "DELETE" then
              match docExisting, access with
              | some _, .all => (.resp 200 "", alistErase store dp)
              | _, _ => (.resp 403 ("no doc at " ++ path), store)
            else if method = "POST" || method = "PUT" || method = "PATCH" then
              if docExisting.isSome && method = "POST" then
                (.resp 403 ("document " ++ path ++ " already exists"), store)
              else if docExisting.isNone && method != "POST" then
                (.resp 403 ("cannot update non-existent document " ++ path), store)
              else
                let existing := docExisting.getD []
                let createdVal : JValue :=
                  match objGet existing "_created" with
                  | some v => if v.truthy then v else .str nowStr
                  | none => .str nowStr
                let data0 : Obj :=
                  let body := spreadFields reqData
                  let merged := if method = "PATCH" then objMerge existing body else body
                  objSet (objSet merged "_created" createdVal) "_modified" (.str nowStr)
                let schemaCheck : Option (List (String × String)) :=
                  match config.schema with
                  | some v =>
                    let res := v data0
                    if res.1 then none else some res.2
                  | none => none
                match schemaCheck with
                | some errors =>
                  (.jsonResp 400 (.obj
                    [("error", .str "schema validation failed"),
                     ("details", .arr (errors.map (fun e =>
                        .obj [("path", .str e.1), ("message", .str e.2)])))]), store)
                | none =>
                  let validated : Except Unit Obj :=
                    match config.validate with
                    | some f =>
                      match f data0 userRoles existing with
                      | .error _ => .error ()
                      | .ok d => .ok d
                    | none => .ok data0
                  match validated with
                  | .error _ => (.resp 400 "validation failed", store)
                  | .ok data1 =>
                    match checkUniques collections store path (lastSegment dp) data1
                        (config.unique.getD []) with
                    | .error m => (.crash m, store)
                    | .ok (some f) =>
                      (.resp 400 ("\"" ++ f ++ "\" is required to exist and be unique"),
                        store)
                    | .ok none =>
                      let toStore := alistErase data1 "_path"
                      (.resp 200
                        ((if method = "POST" then "created " else "updated ") ++ path),
                        alistSet store dp toStore)
            else (.resp 400 "bad request type", store)

/-! Concrete fixtures used by the witness theorems: small registries,
stores and callers mirroring the collection configurations of the
repository (post, config). -/

/-- Caller holding only the editor role. -/
def editorUser : UserRoles :=
  { name := "e", contacts := [], roles := ["editor"], userIds := [] }

/-- Caller holding only the admin role (privileged). -/
def adminUser : UserRoles :=
  { name := "a", contacts := [], roles := ["admin"], userIds := [] }

/-- Caller holding only the author role (non-privileged). -/
def authorUser : UserRoles :=
  { name := "w", contacts := [], roles := ["author"], userIds := [] }

/-- Registry fixture: a post collection with a unique title field and no
access map. -/
def uniqueDemoRegistry : CollectionMap := [("post", { unique := some ["title"] })]

/-- Store fixture: two posts with distinct titles. -/
def uniqueDemoStore : Store :=
  [("post/1", [("title", .str "a")]), ("post/2", [("title", .str "b")])]

/-- Config fixture with a cache TTL, an ALL public read grant and a
field-map admin read grant (two different non-denied grants). -/
def cachedConfigFixture : CollectionConfig where
  cacheLatencySeconds := some 300
  access := some
    [("public", { read := some Grant.all }),
     ("admin", { read := some (.fieldMap [("x", FieldGrant.all)]) })]

/-- Cache fixture holding one unexpired entry. -/
def cacheFixture : Cache :=
  [("config/site", { data := .str "CACHED", expiry := 50, lastAccess := 1 })]

/-- Config fixture declaring author (field-map write) before admin (ALL
write). -/
def deleteDemoConfig : CollectionConfig where
  access := some
    [("author", { write := some (.fieldMap [("title", FieldGrant.all)]) }),
     ("admin", { write := some Grant.all })]

/-- Registry fixture for the delete scenarios. -/
def deleteDemoRegistry : CollectionMap := [("post", deleteDemoConfig)]

/-- List filter of the post collection in blog.ts: a record without a
date field (unpublished) is masked with an Error. -/
def postListFilter : Obj → UserRoles → JValue := fun data _ =>
  match objGet data "date" with
  | some .undef => .err "unpublished"
  | some _ => .obj data
  | none => .err "unpublished"

/-- Config fixture: public list access through the post list filter. -/
def postPublicConfig : CollectionConfig where
  access := some [("public", { list := some (.filterFn postListFilter) })]

/-- Registry fixture for the list scenarios. -/
def listDemoRegistry : CollectionMap := [("post", postPublicConfig)]

/-- Store fixture: one published and one unpublished post. -/
def listDemoStore : Store :=
  [("post/1", [("title", .str "a"), ("date", .str "2024")]),
   ("post/2", [("title", .str "b")])]

/-- Config fixture declaring author before admin, both with write grants
of different strength. -/
def roleOrderDemoConfig : CollectionConfig where
  access := some
    [("author", { write := some (.fieldMap [("title", FieldGrant.all)]) }),
     ("admin", { write := some Grant.all })]

/-- Config fixture where public declares read but the admin role entry
declares only write. -/
def publicFloorConfig : CollectionConfig where
  access := some
    [("public", { read := some Grant.all }),
     ("admin", { write := some Grant.all })]

/-! Helper lemmas shared by the claim theorems. -/

/-- Assignment of a fresh key appends it at the end of the object. -/
theorem alistSet_append {β : Type} (l : List (String × β)) (k : String) (v : β)
    (h : k ∉ l.map Prod.fst) : alistSet l k v = l ++ [(k, v)] := by
  induction l with
  | nil => rfl
  | cons e rest ih =>
    simp only [List.map_cons, List.mem_cons, not_or] at h
    simp only [alistSet, if_neg (Ne.symm h.1), List.cons_append, ih h.2]

/-- The copy loop of the generated field filter appends, to its
accumulator, exactly one entry per map key with the ALL sentinel, in map
order, with the value read from the document (undefined when absent). -/
theorem generatedFilter_go (data : Obj) (m : FieldAccessMap) (acc : Obj)
    (hd : ∀ k ∈ m.map Prod.fst, k ∉ acc.map Prod.fst)
    (hn : (m.map Prod.fst).Nodup) :
    (m.foldl (fun acc e =>
      match e.2 with
      | .all => objSet acc e.1 ((objGet data e.1).getD .undef)
      | .other _ => acc) acc)
    = acc ++ m.filterMap (fun e =>
        match e.2 with
        | .all => some (e.1, (objGet data e.1).getD .undef)
        | .other _ => none) := by
  induction m generalizing acc with
  | nil => simp
  | cons e rest ih =>
    obtain ⟨k, g⟩ := e
    simp only [List.map_cons, List.nodup_cons] at hn
    have hk : k ∉ acc.map Prod.fst := hd k (by simp)
    cases g with
    | all =>
      simp only [List.foldl_cons, List.filterMap_cons]
      rw [show (objSet acc k ((objGet data k).getD .undef))
            = acc ++ [(k, (objGet data k).getD .undef)] from alistSet_append _ _ _ hk]
      rw [ih (acc ++ [(k, (objGet data k).getD .undef)]) ?_ hn.2]
      · simp
      · intro k' hk'
        simp only [List.map_append, List.mem_append, List.map_cons, List.map_nil,
          List.mem_singleton, not_or]
        refine ⟨hd k' (by simp [hk']), ?_⟩
        intro hkk
        exact hn.1 (hkk ▸ hk')
    | other v =>
      simp only [List.foldl_cons, List.filterMap_cons]
      exact ih acc (fun k' hk' => hd k' (by simp [hk'])) hn.2

/-- In a list of records with pairwise distinct ids, if some record has
an id other than `x`, then already among the first two records one has an
id other than `x` (the pigeonhole fact behind the limit-2 uniqueness
query). -/
theorem exists_ne_in_take_two {l : List (String × Obj)} {x : String}
    (hnd : (l.map Prod.fst).Nodup) (h : ∃ e ∈ l, e.1 ≠ x) :
    ∃ e ∈ l.take 2, e.1 ≠ x := by
  match l, h with
  | [a], ⟨e, he, hne⟩ =>
    rw [List.mem_singleton] at he
    exact ⟨a, by simp, he ▸ hne⟩
  | a :: b :: t, _ =>
    simp only [List.map_cons, List.nodup_cons, List.mem_cons, not_or] at hnd
    by_cases ha : a.1 = x
    · by_cases hb : b.1 = x
      · exact absurd (ha.trans hb.symm) hnd.1.1
      · exact ⟨b, by simp, hb⟩
    · exact ⟨a, by simp, ha⟩

/-! Claim theorems. -/

/-- C1: for a collection config declaring roles A and B in that order,
where both declare a grant for the operation category of the request and
the caller holds both, getMethodAccess returns the grant declared by B
(as getMethodAccess wraps it: a field map becomes its generated filter
closure) — the last declared-and-held role with a grant for the category
wins, whatever the privilege of A and B. -/
theorem c1_last_declared_role_wins
    (collections : CollectionMap) (cPath method : String) (u : UserRoles)
    (A B : String) (cfgA cfgB : AccessConfig) (config : CollectionConfig)
    (cat : AccessCategory) (gA gB : Grant)
    (hLookup : List.lookup cPath collections = some config)
    (hAccess : config.access = some [(A, cfgA), (B, cfgB)])
    (hCat : accessMap method = some cat)
    (hgA : catGrant cat cfgA = some gA)
    (hgB : catGrant cat cfgB = some gB)
    (hA : u.roles.contains A = true)
    (hB : u.roles.contains B = true) :
    getMethodAccess collections cPath method u none = some (wrapGrant gB) := by
  simp only [getMethodAccess, hLookup, hAccess, hCat, List.foldl_cons, List.foldl_nil,
    hA, hB, if_pos, hgA, hgB]
  cases gB <;> rfl

/-- C1 witness: author declares a field-map write grant before admin
declares an ALL write grant; a caller holding both roles receives the
admin (ALL) grant for POST. -/
theorem c1_witness :
    getMethodAccess [("post", roleOrderDemoConfig)] "post" "POST"
      { name := "u", contacts := [], roles := ["author", "admin"], userIds := [] } none
      = some MethodAccess.all :=
  c1_last_declared_role_wins [("post", roleOrderDemoConfig)] "post" "POST"
    { name := "u", contacts := [], roles := ["author", "admin"], userIds := [] }
    "author" "admin"
    { write := some (.fieldMap [("title", FieldGrant.all)]) }
    { write := some Grant.all }
    roleOrderDemoConfig .write (.fieldMap [("title", FieldGrant.all)]) Grant.all
    rfl rfl rfl rfl rfl (by decide) (by decide)

/-- C2 counterexample: the claim asserts that when public declares a read
grant but the admin role declares none, a caller holding only admin is
denied (undefined). On the code the caller receives the public ALL grant
instead: the public entry initializes the effective grant for every
caller, held or not, so the result is not none. -/
theorem c2_counterexample :
    getMethodAccess [("c", publicFloorConfig)] "c" "GET" adminUser none
      = some MethodAccess.all ∧
    getMethodAccess [("c", publicFloorConfig)] "c" "GET" adminUser none ≠ none := by
  refine ⟨rfl, ?_⟩
  rw [show getMethodAccess [("c", publicFloorConfig)] "c" "GET" adminUser none
      = some MethodAccess.all from rfl]
  exact Option.some_ne_none _

/-- C2 amended: when the public role declares a grant for the category
and role R (declared after public, R not public) declares none, a caller
whose role-set is exactly [R] receives the public grant (as wrapped by
getMethodAccess), not denial — the public entry is the floor for every
caller whether or not the caller holds public. -/
theorem c2_amended
    (collections : CollectionMap) (cPath method : String) (u : UserRoles)
    (R : String) (pubCfg rCfg : AccessConfig) (config : CollectionConfig)
    (cat : AccessCategory) (g : Grant)
    (hLookup : List.lookup cPath collections = some config)
    (hAccess : config.access = some [("public", pubCfg), (R, rCfg)])
    (hR : R ≠ "public")
    (hCat : accessMap method = some cat)
    (hPub : catGrant cat pubCfg = some g)
    (hRNone : catGrant cat rCfg = none)
    (hRoles : u.roles = [R]) :
    getMethodAccess collections cPath method u none = some (wrapGrant g) := by
  have h1 : (R == "public") = false := by simpa using hR
  have h2 : ([R].contains ("public" : String)) = false := by
    simpa using Ne.symm hR
  simp only [getMethodAccess, hLookup, hAccess, hCat, List.lookup, List.foldl_cons,
    List.foldl_nil, hRoles, hPub, hRNone, h1, h2, ite_self, Bool.false_eq_true,
    if_false, beq_self_eq_true, Option.some_bind]
  cases g <;> rfl

/-- C2 witness: with public read ALL and admin declaring only write, a
caller holding only admin receives ALL for GET. -/
theorem c2_witness :
    getMethodAccess [("c", publicFloorConfig)] "c" "GET" adminUser none
      = some MethodAccess.all :=
  c2_amended [("c", publicFloorConfig)] "c" "GET" adminUser "admin"
    { read := some Grant.all } { write := some Grant.all } publicFloorConfig
    .read Grant.all rfl rfl (by decide) rfl rfl rfl rfl

/-- C3: for a field-map grant, the filter function getMethodAccess
generates returns, on any input document, a fresh object holding exactly
the `_path` of the document followed by the fields whose map entry is the
ALL sentinel (values read from the document), and no other field. The
side conditions state that the map is a genuine JS object: distinct keys
and no own `_path` key. -/
theorem c3_field_projection
    (cp r : String) (m : FieldAccessMap) (u : UserRoles) (data : Obj)
    (hr : u.roles.contains r = true)
    (hn : (m.map Prod.fst).Nodup)
    (hp : "_path" ∉ m.map Prod.fst) :
    getMethodAccess [(cp, { access := some [(r, { read := some (.fieldMap m) })] })]
        cp "GET" u none = some (.fn (generatedFilter m)) ∧
    generatedFilter m data u = .obj (("_path", (objGet data "_path").getD .undef) ::
      m.filterMap (fun e =>
        match e.2 with
        | .all => some (e.1, (objGet data e.1).getD .undef)
        | .other _ => none)) := by
  constructor
  · simp only [getMethodAccess, List.lookup, beq_self_eq_true, accessMap,
      List.foldl_cons, List.foldl_nil, hr, if_pos, catGrant]
  · show JValue.obj _ = _
    rw [generatedFilter_go data m [("_path", (objGet data "_path").getD .undef)] ?_ hn]
    · simp
    · intro k hk
      simp only [List.map_cons, List.map_nil, List.mem_singleton]
      intro hkk
      exact hp (hkk ▸ hk)

/-- C3 witness: the map with only name permitted, applied to a document
with _path, name, email and password, yields exactly _path and name. -/
theorem c3_witness :
    getMethodAccess
        [("users", { access := some [("member",
            { read := some (.fieldMap [("name", FieldGrant.all)]) })] })]
        "users" "GET"
        { name := "m", contacts := [], roles := ["member"], userIds := [] } none
      = some (.fn (generatedFilter [("name", FieldGrant.all)])) ∧
    generatedFilter [("name", FieldGrant.all)]
        [("_path", .str "users/1"), ("name", .str "Ann"),
         ("email", .str "a@b.c"), ("password", .str "p")]
        { name := "m", contacts := [], roles := ["member"], userIds := [] }
      = .obj [("_path", .str "users/1"), ("name", .str "Ann")] :=
  c3_field_projection "users" "member" [("name", FieldGrant.all)]
    { name := "m", contacts := [], roles := ["member"], userIds := [] }
    [("_path", .str "users/1"), ("name", .str "Ann"),
     ("email", .str "a@b.c"), ("password", .str "p")]
    (by decide) (by decide) (by decide)

/-- C4: evaluation of getMethodAccess at the failing input of the claim.
First conjunct: an ALL grant with filterFields ["name"] is narrowed to
the field map holding exactly name, as the claim states. Second and third
conjuncts: a pre-existing field-map grant with name and email, narrowed
by filterFields ["name"], is returned unchanged — the narrowing loop in
the source iterates the index strings of Object.keys and deletes only a
property literally called key — and its projection still exposes email,
contradicting the claim that no field outside filterFields is exposed. -/
theorem c4_filterfields_bug :
    (getMethodAccess [("c", { access := some [("editor", { read := some Grant.all })] })]
        "c" "GET" editorUser (some ["name"])
      = some (.fn (generatedFilter [("name", FieldGrant.all)]))) ∧
    (getMethodAccess [("c", { access := some [("editor",
          { read := some (.fieldMap [("name", FieldGrant.all), ("email", FieldGrant.all)]) })] })]
        "c" "GET" editorUser (some ["name"])
      = some (.fn (generatedFilter [("name", FieldGrant.all), ("email", FieldGrant.all)]))) ∧
    (generatedFilter [("name", FieldGrant.all), ("email", FieldGrant.all)]
        [("_path", .str "c/1"), ("name", .str "n"), ("email", .str "e")] editorUser
      = .obj [("_path", .str "c/1"), ("name", .str "n"), ("email", .str "e")]) :=
  ⟨rfl, rfl, rfl⟩

/-- C5: getDoc renders an access denial and a nonexistent document
identically for a caller without a privileged role — both produce the
value errRes "not found" 404 — while a privileged caller receives the
detailed errRes "access denied" 403 for the same denial, distinguishable
from not-found. The two scenarios are quantified independently: scenario
one is denied outright, scenario two has access but the document is
absent (cache miss, path resolved to a document reference). -/
theorem c5_opaque_denial
    (cs1 : CollectionMap) (st1 : Store) (ca1 : Cache) (n1 : Nat)
    (u1 u3 : UserRoles) (m1 p1 : String)
    (cs2 : CollectionMap) (st2 : Store) (ca2 : Cache) (n2 : Nat)
    (u2 : UserRoles) (m2 p2 dp : String) (acc2 : MethodAccess)
    (h1 : getMethodAccess cs1 (collectionPath p1) m1 u1 none = none)
    (hu1 : hasPrivilegedRole u1 = false)
    (h3 : getMethodAccess cs1 (collectionPath p1) m1 u3 none = none)
    (hu3 : hasPrivilegedRole u3 = true)
    (h2 : getMethodAccess cs2 (collectionPath p2) m2 u2 none = some acc2)
    (hca2 : List.lookup p2 ca2 = none)
    (href2 : getRef cs2 st2 p2 false = .docRef dp)
    (hdoc2 : List.lookup dp st2 = none) :
    (getDoc cs1 st1 ca1 n1 u1 m1 p1).fst = .errRes "not found" 404 ∧
    (getDoc cs2 st2 ca2 n2 u2 m2 p2).fst = .errRes "not found" 404 ∧
    (getDoc cs1 st1 ca1 n1 u3 m1 p1).fst = .errRes "access denied" 403 ∧
    DocResult.errRes "access denied" 403 ≠ DocResult.errRes "not found" 404 := by
  refine ⟨?_, ?_, ?_, by simp⟩
  · simp only [getDoc, h1, opaqueError, hu1, Bool.false_eq_true, if_false]
  · simp only [getDoc, h2, hca2, href2, hdoc2, ite_self]
  · simp only [getDoc, h3, opaqueError, hu3, if_true]

/-- C5 witness: anonymous caller denied on an unknown collection and
anonymous caller reading a missing document both get errRes "not found"
404; the admin caller denied on the same unknown collection gets
errRes "access denied" 403. -/
theorem c5_witness :
    (getDoc [] [] [] 0 anonymousUser "GET" "post/1").fst = .errRes "not found" 404 ∧
    (getDoc [("post", { access := some [("public", { read := some Grant.all })] })]
        [] [] 0 anonymousUser "GET" "post/9").fst = .errRes "not found" 404 ∧
    (getDoc [] [] [] 0 adminUser "GET" "post/1").fst = .errRes "access denied" 403 ∧
    DocResult.errRes "access denied" 403 ≠ DocResult.errRes "not found" 404 :=
  c5_opaque_denial [] [] [] 0 anonymousUser adminUser "GET" "post/1"
    [("post", { access := some [("public", { read := some Grant.all })] })]
    [] [] 0 anonymousUser "GET" "post/9" "post/9" .all
    rfl rfl rfl rfl rfl rfl rfl rfl

/-- C6: getMethodAccess returns none (denial) for every method, caller
role-set and filterFields value when the collection path has no registry
entry, and likewise when the registered config declares no access map;
the lookup is by exact path, so nothing is inherited from parents. -/
theorem c6_default_deny
    (collections : CollectionMap) (cPath method : String) (u : UserRoles)
    (ff : Option (List String)) :
    (List.lookup cPath collections = none →
      getMethodAccess collections cPath method u ff = none) ∧
    (∀ config, List.lookup cPath collections = some config → config.access = none →
      getMethodAccess collections cPath method u ff = none) := by
  constructor
  · intro h
    simp only [getMethodAccess, h]
  · intro config h hAcc
    simp only [getMethodAccess, h, hAcc]

/-- C6 witness: the empty registry denies, and a registered post
collection without an access map denies. -/
theorem c6_witness :
    getMethodAccess [] "post" "GET" anonymousUser none = none ∧
    getMethodAccess uniqueDemoRegistry "post" "DELETE" anonymousUser none = none :=
  ⟨(c6_default_deny [] "post" "GET" anonymousUser none).1 rfl,
   (c6_default_deny uniqueDemoRegistry "post" "DELETE" anonymousUser none).2
     { unique := some ["title"] } rfl rfl⟩

/-- C7: the isUnique check (a limit-2 query over the matching documents
of the collection of the written path) passes exactly when the only
matching document is the one being written: it returns true when every
matching document carries the existing id (self excluded by id), and
false when some other document matches, detected already among the first
two query hits because ids are pairwise distinct. -/
theorem c7_unique_check
    (collections : CollectionMap) (store : Store) (path field : String)
    (value : JValue) (existingId cp : String) (filters : List QueryFilter)
    (hv : value.isStringOrNumber = true)
    (hRef : getRef collections store
        (String.intercalate "/" (splitOnChar '/' path).dropLast) true
      = .collRef cp filters)
    (hnd : ((collDocs store cp).map Prod.fst).Nodup) :
    ((∀ e ∈ runQuery store cp (filters ++ [.eqF field value]), e.1 = existingId) →
      isUnique collections store path field value existingId = .ok true) ∧
    ((∃ e ∈ runQuery store cp (filters ++ [.eqF field value]), e.1 ≠ existingId) →
      isUnique collections store path field value existingId = .ok false) := by
  have hq : ((runQuery store cp (filters ++ [.eqF field value])).map Prod.fst).Nodup :=
    hnd.sublist ((List.filter_sublist _).map Prod.fst)
  constructor
  · intro h
    simp only [isUnique, hv, Bool.not_true, Bool.false_eq_true, if_false, hRef]
    have : ((runQuery store cp (filters ++ [.eqF field value])).take 2).any
        (fun e => e.1 != existingId) = false := by
      rw [List.any_eq_false]
      intro e he
      have := h e (List.take_subset 2 _ he)
      simp [this]
    rw [this]
    rfl
  · intro h
    simp only [isUnique, hv, Bool.not_true, Bool.false_eq_true, if_false, hRef]
    obtain ⟨e, he, hne⟩ := exists_ne_in_take_two hq h
    have : ((runQuery store cp (filters ++ [.eqF field value])).take 2).any
        (fun e => e.1 != existingId) = true := by
      rw [List.any_eq_true]
      exact ⟨e, he, by simpa using hne⟩
    rw [this]
    rfl

/-- C7 witness: rewriting post/1 keeping its own title passes the
uniqueness check, and writing the title held by post/2 fails it. -/
theorem c7_witness :
    isUnique uniqueDemoRegistry uniqueDemoStore "post/1" "title" (.str "a") "1"
      = .ok true ∧
    isUnique uniqueDemoRegistry uniqueDemoStore "post/1" "title" (.str "b") "1"
      = .ok false :=
  ⟨(c7_unique_check uniqueDemoRegistry uniqueDemoStore "post/1" "title" (.str "a") "1"
      "post" [] rfl rfl (by decide)).1
      (by
        rw [show runQuery uniqueDemoStore "post" ([] ++ [.eqF "title" (.str "a")])
            = [("1", [("title", JValue.str "a")])] from rfl]
        intro e he
        rw [List.mem_singleton] at he
        rw [he]),
   (c7_unique_check uniqueDemoRegistry uniqueDemoStore "post/1" "title" (.str "b") "1"
      "post" [] rfl rfl (by decide)).2
      (by
        refine ⟨("2", [("title", JValue.str "b")]), ?_, by decide⟩
        rw [show runQuery uniqueDemoStore "post" ([] ++ [.eqF "title" (.str "b")])
            = [("2", [("title", JValue.str "b")])] from rfl]
        exact List.mem_singleton.mpr rfl)⟩

/-- C8: on a DELETE request that reaches the method switch (valid even
path, registered collection, document reference resolved), a filter
grant — generated from a field map or a declared predicate — always
yields the 403 error response with the store unchanged, whether or not
the document exists; with the ALL grant the handler deletes the existing
document (and answers 200), and still refuses with 403 and an unchanged
store when the document does not exist. -/
theorem c8_delete_requires_all
    (collections : CollectionMap) (store : Store) (u : UserRoles)
    (path dp : String) (config : CollectionConfig) (reqData : JValue)
    (nowStr : String) (d : Obj)
    (hp : path ≠ "")
    (heven : (splitOnChar '/' path).length % 2 = 0)
    (hcfg : List.lookup (collectionPath path) collections = some config)
    (href : getRef collections store path false = .docRef dp) :
    (∀ f, getMethodAccess collections (collectionPath path) "DELETE" u none
        = some (.fn f) →
      docHandler collections store u "DELETE" (some path) reqData nowStr
        = (.resp 403 ("no doc at " ++ path), store)) ∧
    (getMethodAccess collections (collectionPath path) "DELETE" u none = some .all →
      List.lookup dp store = some d →
      docHandler collections store u "DELETE" (some path) reqData nowStr
        = (.resp 200 "", alistErase store dp)) ∧
    (getMethodAccess collections (collectionPath path) "DELETE" u none = some .all →
      List.lookup dp store = none →
      docHandler collections store u "DELETE" (some path) reqData nowStr
        = (.resp 403 ("no doc at " ++ path), store)) := by
  have hb : ((splitOnChar '/' path).length % 2 != 0) = false := by simp [heven]
  refine ⟨fun f hacc => ?_, fun hacc hdoc => ?_, fun hacc hdoc => ?_⟩
  · simp only [docHandler, Option.getD_some, if_neg hp, hb, Bool.false_eq_true,
      if_false, hcfg, hacc, href]
    cases List.lookup dp store <;> rfl
  · simp only [docHandler, Option.getD_some, if_neg hp, hb, Bool.false_eq_true,
      if_false, hcfg, hacc, href, hdoc]
    rfl
  · simp only [docHandler, Option.getD_some, if_neg hp, hb, Bool.false_eq_true,
      if_false, hcfg, hacc, href, hdoc]
    rfl

/-- C8 witness: the author (field-map write grant) cannot delete the
existing post/1 and the store is unchanged; the admin (ALL write grant)
deletes post/1, and gets 403 with an unchanged store on the missing
post/9. -/
theorem c8_witness :
    (docHandler deleteDemoRegistry uniqueDemoStore authorUser "DELETE" (some "post/1")
        JValue.undef "now"
      = (.resp 403 ("no doc at " ++ "post/1"), uniqueDemoStore)) ∧
    (docHandler deleteDemoRegistry uniqueDemoStore adminUser "DELETE" (some "post/1")
        JValue.undef "now"
      = (.resp 200 "", alistErase uniqueDemoStore "post/1")) ∧
    (docHandler deleteDemoRegistry uniqueDemoStore adminUser "DELETE" (some "post/9")
        JValue.undef "now"
      = (.resp 403 ("no doc at " ++ "post/9"), uniqueDemoStore)) :=
  ⟨(c8_delete_requires_all deleteDemoRegistry uniqueDemoStore authorUser "post/1"
      "post/1" deleteDemoConfig JValue.undef "now" [] (by decide) (by decide) rfl rfl).1
      (generatedFilter [("title", FieldGrant.all)]) rfl,
   (c8_delete_requires_all deleteDemoRegistry uniqueDemoStore adminUser "post/1"
      "post/1" deleteDemoConfig JValue.undef "now" [("title", .str "a")]
      (by decide) (by decide) rfl rfl).2.1 rfl rfl,
   (c8_delete_requires_all deleteDemoRegistry uniqueDemoStore adminUser "post/9"
      "post/9" deleteDemoConfig JValue.undef "now" [] (by decide) (by decide) rfl rfl).2.2
      rfl rfl⟩

/-- C9: when getDocs resolves LIST access to a filter function, the
result is exactly the per-record filter outputs with every Error dropped:
no element of the result is an Error, every element is the filter output
of some queried record, the filter output of every record that is not an
Error is present, the filter output of a record that is an Error is
absent, and a LIST whose access resolves to denial returns the empty list
(not an error). -/
theorem c9_list_filter_exclusion
    (collections : CollectionMap) (store : Store) (u : UserRoles)
    (path : String) (limit : Nat) (fields : Option (List String)) (order : String)
    (f : Obj → UserRoles → JValue) (recs : List Obj)
    (cs2 : CollectionMap) (st2 : Store) (u2 : UserRoles) (p2 : String)
    (l2 : Nat) (fs2 : Option (List String)) (o2 : String)
    (hacc : getMethodAccess collections (collectionPath path) "LIST" u fields
      = some (.fn f))
    (hrecs : getRecords collections store path limit order fields = .ok recs)
    (h2 : getMethodAccess cs2 (collectionPath p2) "LIST" u2 fs2 = none) :
    getDocs collections store u path limit fields order
      = .ok ((recs.map (fun rec => f rec u)).filter (fun r => !r.isError)) ∧
    (∀ r ∈ (recs.map (fun rec => f rec u)).filter (fun r => !r.isError),
      r.isError = false ∧ ∃ rec ∈ recs, r = f rec u) ∧
    (∀ rec ∈ recs, (f rec u).isError = false →
      f rec u ∈ (recs.map (fun rec => f rec u)).filter (fun r => !r.isError)) ∧
    (∀ rec ∈ recs, (f rec u).isError = true →
      f rec u ∉ (recs.map (fun rec => f rec u)).filter (fun r => !r.isError)) ∧
    getDocs cs2 st2 u2 p2 l2 fs2 o2 = .ok [] := by
  refine ⟨?_, ?_, ?_, ?_, ?_⟩
  · simp only [getDocs, hacc, hrecs, Except.map]
  · intro r hr
    rw [List.mem_filter] at hr
    obtain ⟨hmem, hbool⟩ := hr
    obtain ⟨rec, hrec, heq⟩ := List.mem_map.mp hmem
    refine ⟨by simpa using hbool, rec, hrec, heq.symm⟩
  · intro rec hrec herr
    rw [List.mem_filter]
    exact ⟨List.mem_map_of_mem _ hrec, by simp [herr]⟩
  · intro rec hrec herr hmem
    rw [List.mem_filter] at hmem
    simp [herr] at hmem
  · simp only [getDocs, h2]

/-- C9 witness: listing the post collection as an anonymous caller drops
the unpublished post (its filter output is an Error) and keeps the
published one in filtered form; the same request against an empty
registry (denial) yields the empty list. -/
theorem c9_witness :
    getDocs listDemoRegistry listDemoStore anonymousUser "post" 10 none ""
      = .ok [.obj [("title", .str "a"), ("date", .str "2024"), ("_path", .str "post/1")]] ∧
    getDocs [] listDemoStore anonymousUser "post" 10 none "" = .ok [] :=
  ⟨((c9_list_filter_exclusion listDemoRegistry listDemoStore anonymousUser "post" 10
      none "" postListFilter
      [[("title", .str "a"), ("date", .str "2024"), ("_path", .str "post/1")],
       [("title", .str "b"), ("_path", .str "post/2")]]
      [] listDemoStore anonymousUser "post" 10 none ""
      rfl rfl rfl).1),
   ((c9_list_filter_exclusion listDemoRegistry listDemoStore anonymousUser "post" 10
      none "" postListFilter
      [[("title", .str "a"), ("date", .str "2024"), ("_path", .str "post/1")],
       [("title", .str "b"), ("_path", .str "post/2")]]
      [] listDemoStore anonymousUser "post" 10 none ""
      rfl rfl rfl).2.2.2.2)⟩

/-- C10: when the collection has a nonzero cacheLatencySeconds and the
cache holds an unexpired entry for the path, getDoc returns that entry
data as-is for any caller whose access resolves to a grant — for any
store content (the store is never consulted) and without applying the
current caller filter: two callers with different non-denied grants get
the identical cached value. -/
theorem c10_cache_hit
    (collections : CollectionMap) (st1 st2 : Store) (cache : Cache) (now : Nat)
    (u1 u2 : UserRoles) (method path : String) (config : CollectionConfig)
    (s : Nat) (entry : CacheEntry) (a1 a2 : MethodAccess)
    (hcfg : List.lookup (collectionPath path) collections = some config)
    (hs : config.cacheLatencySeconds = some s) (hs0 : s ≠ 0)
    (hentry : List.lookup path cache = some entry)
    (hexp : entry.expiry > now)
    (ha1 : getMethodAccess collections (collectionPath path) method u1 none = some a1)
    (ha2 : getMethodAccess collections (collectionPath path) method u2 none = some a2) :
    (getDoc collections st1 cache now u1 method path).fst = .ok entry.data ∧
    (getDoc collections st2 cache now u2 method path).fst = .ok entry.data := by
  have hbne : (s != 0) = true := by simpa using hs0
  constructor
  · simp only [getDoc, ha1, hcfg, hs, Option.some_bind, Option.getD_some, hbne,
      if_true, hentry, if_pos hexp]
  · simp only [getDoc, ha2, hcfg, hs, Option.some_bind, Option.getD_some, hbne,
      if_true, hentry, if_pos hexp]

/-- C10 witness: the anonymous caller (ALL grant) and the admin caller
(field-map grant) both read the cached value CACHED within the TTL,
against two different store contents. -/
theorem c10_witness :
    (getDoc [("config", cachedConfigFixture)] [("config/site", [("secret", .str "s")])]
        cacheFixture 10 anonymousUser "GET" "config/site").fst = .ok (.str "CACHED") ∧
    (getDoc [("config", cachedConfigFixture)] []
        cacheFixture 10 adminUser "GET" "config/site").fst = .ok (.str "CACHED") :=
  c10_cache_hit [("config", cachedConfigFixture)]
    [("config/site", [("secret", .str "s")])] [] cacheFixture
    10 anonymousUser adminUser "GET" "config/site" cachedConfigFixture
    300 { data := .str "CACHED", expiry := 50, lastAccess := 1 }
    .all (.fn (generatedFilter [("x", FieldGrant.all)]))
    rfl rfl (by decide) rfl (by decide) rfl rfl

end TosijsPlatform
